import Mathlib

/-!
Verification of the streaming Ethernet-frame decoder (`src/main.rs`).

The Rust code is shallowly embedded: `u8`/`u16`/`u32` values are `Nat`
(wrap/truncation written explicitly with `%` / masks where the machine width
matters), fixed arrays `[u8; N]` are `List Nat` of the corresponding length
(kept by the reachability invariant `Inv`), `Vec<u8>` is `List Nat`, and every
step function is a pure state transformer on the `Decoder` record.  Rust
indexing (which panics out of bounds) is modelled by the total `List.set` /
`List.getD`; the invariant theorems show the indices are in bounds in every
reachable state, so the total model agrees with the partial source there.
-/

set_option maxRecDepth 20000
set_option maxHeartbeats 1000000

namespace EthFrames

/-- The ten states of `DecodeState` in the source. -/
inductive DecodeState where
  | Waiting
  | Preamble
  | Sfd
  | RxMac
  | TxMac
  | Tag802
  | Payload
  | Checksum
  | Finished
  | Invalid
deriving DecidableEq, Repr

/-- `struct EthFrame`: two 6-byte MAC addresses, an optional 2-byte tag and a
growable payload. -/
structure EthFrame where
  rx_mac : List Nat
  tx_mac : List Nat
  tag802 : Option (List Nat)
  payload : List Nat
deriving DecidableEq, Repr

/-- `impl Default for EthFrame`: zeroed addresses, `tag802 = Some([0, 0])`,
empty payload. -/
def EthFrame.default : EthFrame :=
  { rx_mac := List.replicate 6 0
    tx_mac := List.replicate 6 0
    tag802 := some (List.replicate 2 0)
    payload := [] }

/-- `struct Decoder`. -/
structure Decoder where
  pos : Nat
  interim : List Nat
  payload_len : Nat
  frame : EthFrame
  state : DecodeState
deriving DecidableEq, Repr

def PREAMBLE_LEN : Nat := 7

def PREAMBLE : List Nat := [0x55, 0x55, 0x55, 0x55, 0x55, 0x55, 0x55]

def SFD : Nat := 0xAB

/-- `Decoder::new`. -/
def Decoder.new : Decoder :=
  { pos := 0
    state := DecodeState.Waiting
    interim := List.replicate 8 0
    payload_len := 0
    frame := EthFrame.default }

/-- One bit of the reflected CRC-32 register step (polynomial `0xEDB88320`). -/
def crcBitStep (r : Nat) : Nat :=
  if r % 2 = 1 then (r / 2) ^^^ 0xEDB88320 else r / 2

/-- One byte of the reflected CRC-32 register run: xor the byte into the low
bits, then eight bit steps.  The `% 256` is the `u8` width of the input byte. -/
def crcByteStep (r b : Nat) : Nat :=
  crcBitStep (crcBitStep (crcBitStep (crcBitStep
    (crcBitStep (crcBitStep (crcBitStep (crcBitStep (r ^^^ (b % 256)))))))))

/-- Raw reflected CRC-32 register run over a byte list from register value `r`
(no pre- or post-conditioning). -/
def crcRaw (r : Nat) (data : List Nat) : Nat :=
  data.foldl crcByteStep r

/-- Bitwise complement at 32 bits. -/
def compl32 (x : Nat) : Nat :=
  0xFFFFFFFF ^^^ x

/-- Models one `crc32fast::Hasher::update` on a hasher whose current checksum
is `state`: the crate's update complements the resumable checksum into the raw
register, runs the table-driven reflected CRC-32, and complements back out
(zlib-style resumable CRC-32). -/
def crc32_update (state : Nat) (data : List Nat) : Nat :=
  compl32 (crcRaw (compl32 state) data)

/-- The checksum chained over the four field groups in source order; shared by
`hash_crc32` and the wire serializer. -/
def frameCrc (rx tx tag payload : List Nat) : Nat :=
  crc32_update (crc32_update (crc32_update (crc32_update 0xFFFFFFFF rx) tx) tag) payload

/-- `Decoder::hash_crc32`: `Hasher::new_with_initial(0xFFFFFFFF)` updated with
`rx_mac`, `tx_mac`, `tag802.unwrap()` and `payload`, then finalized (finalize
returns the resumable checksum unchanged).  The `unwrap` of the source is
total-ized with `getD`; the invariant theorems show `tag802` is `some` in every
reachable state, so the default is never taken. -/
def hash_crc32 (f : EthFrame) : Nat :=
  frameCrc f.rx_mac f.tx_mac (f.tag802.getD (List.replicate 2 0)) f.payload

/-- `u16::from_be_bytes` on a 2-byte list of `u8` values. -/
def u16_from_be (t : List Nat) : Nat :=
  256 * t.getD 0 0 + t.getD 1 0

/-- `u32::from_be_bytes` on a 4-byte list of `u8` values. -/
def u32_from_be (l : List Nat) : Nat :=
  16777216 * l.getD 0 0 + 65536 * l.getD 1 0 + 256 * l.getD 2 0 + l.getD 3 0

/-- `Decoder::clear_pos_and_interim`. -/
def Decoder.clear_pos_and_interim (d : Decoder) : Decoder :=
  { d with pos := 0, interim := List.replicate 8 0 }

/-- `Decoder::clear_all`. -/
def Decoder.clear_all (d : Decoder) : Decoder :=
  { d.clear_pos_and_interim with payload_len := 0 }

/-- `Decoder::step_waiting`: store the byte unconditionally and enter
`Preamble`. -/
def Decoder.step_waiting (d : Decoder) (b : Nat) : Decoder :=
  { d with state := DecodeState.Preamble, interim := d.interim.set d.pos b, pos := d.pos + 1 }

/-- `Decoder::step_preamble`.  `PREAMBLE[self.pos]` is modelled by `getD`; the
invariant shows `pos < 7` whenever this runs. -/
def Decoder.step_preamble (d : Decoder) (b : Nat) : Decoder :=
  if PREAMBLE.getD d.pos 0 ≠ b then
    ({ d with state := DecodeState.Waiting }).clear_pos_and_interim
  else
    let d2 := { d with pos := d.pos + 1 }
    if d2.pos = PREAMBLE_LEN then
      { d2.clear_pos_and_interim with state := DecodeState.Sfd }
    else d2

/-- `Decoder::step_sfd`. -/
def Decoder.step_sfd (d : Decoder) (b : Nat) : Decoder :=
  if b = SFD then { d with state := DecodeState.RxMac }
  else { d with state := DecodeState.Waiting }

/-- `Decoder::step_rx_mac`. -/
def Decoder.step_rx_mac (d : Decoder) (b : Nat) : Decoder :=
  let f := { d.frame with rx_mac := d.frame.rx_mac.set d.pos b }
  let d2 := { d with frame := f, pos := d.pos + 1 }
  if d2.pos = f.rx_mac.length then
    { d2.clear_pos_and_interim with state := DecodeState.TxMac }
  else d2

/-- `Decoder::step_tx_mac`. -/
def Decoder.step_tx_mac (d : Decoder) (b : Nat) : Decoder :=
  let f := { d.frame with tx_mac := d.frame.tx_mac.set d.pos b }
  let d2 := { d with frame := f, pos := d.pos + 1 }
  if d2.pos = f.tx_mac.length then
    { d2.clear_pos_and_interim with state := DecodeState.Tag802 }
  else d2

/-- `Decoder::step_tag802`: early return when `tag802` is `None`, otherwise
write at the cursor; on the second byte decode the big-endian length, set
`payload_len`, enter `Payload` and clear the cursor. -/
def Decoder.step_tag802 (d : Decoder) (b : Nat) : Decoder :=
  match d.frame.tag802 with
  | none => d
  | some tag =>
    let tag2 := tag.set d.pos b
    let f := { d.frame with tag802 := some tag2 }
    let d2 := { d with frame := f, pos := d.pos + 1 }
    if d2.pos = tag2.length then
      ({ d2 with payload_len := u16_from_be tag2, state := DecodeState.Payload }).clear_pos_and_interim
    else d2

/-- `Decoder::step_payload`: push the byte, and move to `Checksum` exactly when
the payload length equals the expected length. -/
def Decoder.step_payload (d : Decoder) (b : Nat) : Decoder :=
  let f := { d.frame with payload := d.frame.payload ++ [b] }
  let d2 := { d with frame := f }
  if f.payload.length = d2.payload_len then
    { d2 with state := DecodeState.Checksum }
  else d2

/-- `Decoder::step_checksum`: collect four bytes into `interim`; on the fourth,
compare `hash_crc32` with the big-endian word read off the wire. -/
def Decoder.step_checksum (d : Decoder) (b : Nat) : Decoder :=
  let d2 := { d with interim := d.interim.set d.pos b, pos := d.pos + 1 }
  if d2.pos = 4 then
    let crc_32 := hash_crc32 d2.frame
    let verify := u32_from_be (d2.interim.take 4)
    if crc_32 = verify then
      { d2.clear_pos_and_interim with state := DecodeState.Finished }
    else
      { d2 with state := DecodeState.Invalid }
  else d2

/-- `Decoder::step_finished`: hand the frame out, install a fresh default
frame, clear everything and return to `Waiting`. -/
def Decoder.step_finished (d : Decoder) : Decoder × Option EthFrame :=
  let frame := d.frame
  let d2 := ({ d with frame := EthFrame.default }).clear_all
  ({ d2 with state := DecodeState.Waiting }, some frame)

/-- `Decoder::recv_byte`.  Every arm except `Finished` falls through to
`None`; the `Invalid` arm ignores the byte, clears cursor and expected length
and returns to `Waiting` (the frame field is left as is). -/
def Decoder.recv_byte (d : Decoder) (b : Nat) : Decoder × Option EthFrame :=
  match d.state with
  | DecodeState.Waiting => (d.step_waiting b, none)
  | DecodeState.Preamble => (d.step_preamble b, none)
  | DecodeState.Sfd => (d.step_sfd b, none)
  | DecodeState.RxMac => (d.step_rx_mac b, none)
  | DecodeState.TxMac => (d.step_tx_mac b, none)
  | DecodeState.Tag802 => (d.step_tag802 b, none)
  | DecodeState.Payload => (d.step_payload b, none)
  | DecodeState.Checksum => (d.step_checksum b, none)
  | DecodeState.Finished => d.step_finished
  | DecodeState.Invalid => (({ d with state := DecodeState.Waiting }).clear_all, none)

/-- Feed a byte list one byte at a time (the driver loop of `main`), collecting
every emitted frame in order. -/
def run (d : Decoder) : List Nat → Decoder × List EthFrame
  | [] => (d, [])
  | b :: bs =>
    match d.recv_byte b with
    | (d2, none) => run d2 bs
    | (d2, some f) =>
      let r := run d2 bs
      (r.1, f :: r.2)

/-- Big-endian 2-byte encoding of a length value (the wire length field). -/
def be16 (n : Nat) : List Nat :=
  [n / 256 % 256, n % 256]

/-- Big-endian 4-byte encoding of a 32-bit checksum (the wire trailer). -/
def be32 (n : Nat) : List Nat :=
  [n / 16777216 % 256, n / 65536 % 256, n / 256 % 256, n % 256]

/-- The wire layout of the spec with an arbitrary trailer word `c`:
preamble, start delimiter, receiver address, transmitter address, big-endian
length, payload, big-endian checksum. -/
def serializeC (rx tx payload : List Nat) (c : Nat) : List Nat :=
  PREAMBLE ++ [SFD] ++ rx ++ tx ++ be16 payload.length ++ payload ++ be32 c

/-- The wire layout of the spec with the correct trailing checksum. -/
def serialize (rx tx payload : List Nat) : List Nat :=
  serializeC rx tx payload (frameCrc rx tx (be16 payload.length) payload)

/-- Modelled from the spec: "standard 32-bit CRC (polynomial as used by common
Ethernet-style frame checking; initial register value `0xFFFFFFFF`, result
taken as a plain 32-bit value with no post-complement)" — the reflected
Ethernet-polynomial register run started at `0xFFFFFFFF`, returned without a
final complement.  This is the comparison definition for claim C5 only; the
code's value is `hash_crc32`. -/
def specCrc (data : List Nat) : Nat :=
  crcRaw 0xFFFFFFFF data

/-- Per-state bound on the cursor: in every reachable state the cursor is
strictly below this, which puts every source index in bounds. -/
def stateBound : DecodeState → Nat
  | DecodeState.Waiting => 1
  | DecodeState.Preamble => 7
  | DecodeState.Sfd => 1
  | DecodeState.RxMac => 6
  | DecodeState.TxMac => 6
  | DecodeState.Tag802 => 2
  | DecodeState.Payload => 1
  | DecodeState.Checksum => 4
  | DecodeState.Finished => 1
  | DecodeState.Invalid => 5

/-- Reachability invariant of the decoder: cursor in range for the current
state, scratch buffer of capacity 8, both MAC fields of width 6, and a present
2-byte tag field. -/
def Inv (d : Decoder) : Prop :=
  d.pos < stateBound d.state ∧
  d.interim.length = 8 ∧
  d.frame.rx_mac.length = 6 ∧
  d.frame.tx_mac.length = 6 ∧
  ∃ t, d.frame.tag802 = some t ∧ t.length = 2

end EthFrames

namespace EthFrames

set_option maxRecDepth 20000

/-! ## Basic run lemmas -/

lemma run_cons_none {d d2 : Decoder} {b : Nat} (bs : List Nat)
    (h : d.recv_byte b = (d2, none)) : run d (b :: bs) = run d2 bs := by
  rw [run, h]

lemma run_cons_some {d d2 : Decoder} {b : Nat} {f : EthFrame} (bs : List Nat)
    (h : d.recv_byte b = (d2, some f)) :
    run d (b :: bs) = ((run d2 bs).1, f :: (run d2 bs).2) := by
  rw [run, h]

lemma run_append (d : Decoder) (xs ys : List Nat) :
    run d (xs ++ ys) =
      ((run (run d xs).1 ys).1, (run d xs).2 ++ (run (run d xs).1 ys).2) := by
  induction xs generalizing d with
  | nil => simp [run]
  | cons b xs ih =>
    rcases h : d.recv_byte b with ⟨d2, of⟩
    cases of with
    | none =>
      rw [List.cons_append, run_cons_none (xs ++ ys) h, run_cons_none xs h, ih]
    | some f =>
      rw [List.cons_append, run_cons_some (xs ++ ys) h, run_cons_some xs h, ih]
      simp

lemma run_chain {d1 d2 d3 : Decoder} {xs ys : List Nat} {fs gs : List EthFrame}
    (hx : run d1 xs = (d2, fs)) (hy : run d2 ys = (d3, gs)) :
    run d1 (xs ++ ys) = (d3, fs ++ gs) := by
  rw [run_append, hx]
  simp [hy]

/-! ## One lemma per decoding phase -/

lemma run_sync :
    run Decoder.new (PREAMBLE ++ [SFD]) =
      (⟨0, List.replicate 8 0, 0,
        ⟨[0, 0, 0, 0, 0, 0], [0, 0, 0, 0, 0, 0], some [0, 0], []⟩, DecodeState.RxMac⟩, []) := by
  decide

lemma run_rx (Iv : List Nat) (L : Nat) (tm : List Nat) (tg : Option (List Nat))
    (pl : List Nat) (a0 a1 a2 a3 a4 a5 b0 b1 b2 b3 b4 b5 : Nat) :
    run ⟨0, Iv, L, ⟨[a0, a1, a2, a3, a4, a5], tm, tg, pl⟩, DecodeState.RxMac⟩
        [b0, b1, b2, b3, b4, b5] =
      (⟨0, List.replicate 8 0, L, ⟨[b0, b1, b2, b3, b4, b5], tm, tg, pl⟩, DecodeState.TxMac⟩, []) := by
  simp [run, Decoder.recv_byte, Decoder.step_rx_mac, Decoder.clear_pos_and_interim]

lemma run_tx (Iv : List Nat) (L : Nat) (rm : List Nat) (tg : Option (List Nat))
    (pl : List Nat) (a0 a1 a2 a3 a4 a5 b0 b1 b2 b3 b4 b5 : Nat) :
    run ⟨0, Iv, L, ⟨rm, [a0, a1, a2, a3, a4, a5], tg, pl⟩, DecodeState.TxMac⟩
        [b0, b1, b2, b3, b4, b5] =
      (⟨0, List.replicate 8 0, L, ⟨rm, [b0, b1, b2, b3, b4, b5], tg, pl⟩, DecodeState.Tag802⟩, []) := by
  simp [run, Decoder.recv_byte, Decoder.step_tx_mac, Decoder.clear_pos_and_interim]

lemma run_tag (Iv : List Nat) (L : Nat) (rm tm : List Nat) (pl : List Nat)
    (x0 x1 t0 t1 : Nat) :
    run ⟨0, Iv, L, ⟨rm, tm, some [x0, x1], pl⟩, DecodeState.Tag802⟩ [t0, t1] =
      (⟨0, List.replicate 8 0, 256 * t0 + t1, ⟨rm, tm, some [t0, t1], pl⟩, DecodeState.Payload⟩, []) := by
  simp [run, Decoder.recv_byte, Decoder.step_tag802, Decoder.clear_pos_and_interim, u16_from_be]

lemma run_payload_fill (ps : List Nat) :
    ∀ (P : Nat) (Iv : List Nat) (L : Nat) (rm tm : List Nat) (tg : Option (List Nat))
      (acc : List Nat), acc.length + ps.length = L → ps ≠ [] →
    run ⟨P, Iv, L, ⟨rm, tm, tg, acc⟩, DecodeState.Payload⟩ ps =
      (⟨P, Iv, L, ⟨rm, tm, tg, acc ++ ps⟩, DecodeState.Checksum⟩, []) := by
  induction ps with
  | nil => intro _ _ _ _ _ _ _ _ hne; exact absurd rfl hne
  | cons b rest ih =>
    intro P Iv L rm tm tg acc hlen _
    cases rest with
    | nil =>
      have hL : L = acc.length + 1 := by simpa using hlen.symm
      subst hL
      simp [run, Decoder.recv_byte, Decoder.step_payload]
    | cons c rest2 =>
      have hne : ¬acc.length + 1 = L := by
        simp only [List.length_cons] at hlen
        omega
      have hstep : (⟨P, Iv, L, ⟨rm, tm, tg, acc⟩, DecodeState.Payload⟩ : Decoder).recv_byte b =
          (⟨P, Iv, L, ⟨rm, tm, tg, acc ++ [b]⟩, DecodeState.Payload⟩, none) := by
        simp [Decoder.recv_byte, Decoder.step_payload, hne]
      have hlen2 : (acc ++ [b]).length + (c :: rest2).length = L := by
        simp only [List.length_append, List.length_cons, List.length_nil] at hlen ⊢
        omega
      rw [run_cons_none _ hstep, ih _ _ _ _ _ _ _ hlen2 (by simp)]
      simp

lemma run_payload_zero (bs : List Nat) :
    ∀ (P : Nat) (Iv : List Nat) (rm tm : List Nat) (tg : Option (List Nat)) (acc : List Nat),
    run ⟨P, Iv, 0, ⟨rm, tm, tg, acc⟩, DecodeState.Payload⟩ bs =
      (⟨P, Iv, 0, ⟨rm, tm, tg, acc ++ bs⟩, DecodeState.Payload⟩, []) := by
  induction bs with
  | nil => intro _ _ _ _ _ _; simp [run]
  | cons b rest ih =>
    intro P Iv rm tm tg acc
    have hstep : (⟨P, Iv, 0, ⟨rm, tm, tg, acc⟩, DecodeState.Payload⟩ : Decoder).recv_byte b =
        (⟨P, Iv, 0, ⟨rm, tm, tg, acc ++ [b]⟩, DecodeState.Payload⟩, none) := by
      simp [Decoder.recv_byte, Decoder.step_payload]
    rw [run_cons_none _ hstep, ih]
    simp

lemma run_checksum (L : Nat) (rm tm : List Nat) (tg : Option (List Nat))
    (pl : List Nat) (c0 c1 c2 c3 : Nat) :
    run ⟨0, List.replicate 8 0, L, ⟨rm, tm, tg, pl⟩, DecodeState.Checksum⟩ [c0, c1, c2, c3] =
      (if hash_crc32 ⟨rm, tm, tg, pl⟩ = 16777216 * c0 + 65536 * c1 + 256 * c2 + c3 then
        ⟨0, List.replicate 8 0, L, ⟨rm, tm, tg, pl⟩, DecodeState.Finished⟩
       else
        ⟨4, [c0, c1, c2, c3, 0, 0, 0, 0], L, ⟨rm, tm, tg, pl⟩, DecodeState.Invalid⟩, []) := by
  by_cases h : hash_crc32 ⟨rm, tm, tg, pl⟩ = 16777216 * c0 + 65536 * c1 + 256 * c2 + c3
  · simp [run, Decoder.recv_byte, Decoder.step_checksum, Decoder.clear_pos_and_interim,
      u32_from_be, List.replicate, h]
  · simp [run, Decoder.recv_byte, Decoder.step_checksum, Decoder.clear_pos_and_interim,
      u32_from_be, List.replicate, h]

lemma run_finish (Iv : List Nat) (L : Nat) (f : EthFrame) (b : Nat) :
    run ⟨0, Iv, L, f, DecodeState.Finished⟩ [b] = (Decoder.new, [f]) := by
  simp [run, Decoder.recv_byte, Decoder.step_finished, Decoder.clear_all,
    Decoder.clear_pos_and_interim, Decoder.new, EthFrame.default]

lemma run_invalid (Iv : List Nat) (P L : Nat) (f : EthFrame) (b : Nat) :
    run ⟨P, Iv, L, f, DecodeState.Invalid⟩ [b] =
      (⟨0, List.replicate 8 0, 0, f, DecodeState.Waiting⟩, []) := by
  simp [run, Decoder.recv_byte, Decoder.clear_all, Decoder.clear_pos_and_interim]

/-! ## 32-bit bounds for the checksum value -/

lemma crcBitStep_lt (r : Nat) (h : r < 4294967296) : crcBitStep r < 4294967296 := by
  unfold crcBitStep
  split
  · exact Nat.xor_lt_two_pow (n := 32) (by omega) (by norm_num)
  · omega

lemma crcByteStep_lt (r b : Nat) (h : r < 4294967296) : crcByteStep r b < 4294967296 := by
  unfold crcByteStep
  have h0 : r ^^^ b % 256 < 4294967296 :=
    Nat.xor_lt_two_pow (n := 32) (by omega)
      (by have := Nat.mod_lt b (y := 256) (by norm_num); omega)
  exact crcBitStep_lt _ (crcBitStep_lt _ (crcBitStep_lt _ (crcBitStep_lt _
    (crcBitStep_lt _ (crcBitStep_lt _ (crcBitStep_lt _ (crcBitStep_lt _ h0)))))))

lemma crcRaw_lt (data : List Nat) : ∀ r, r < 4294967296 → crcRaw r data < 4294967296 := by
  induction data with
  | nil => intro r h; simpa [crcRaw] using h
  | cons b rest ih =>
    intro r h
    have hstep : crcRaw r (b :: rest) = crcRaw (crcByteStep r b) rest := rfl
    rw [hstep]
    exact ih _ (crcByteStep_lt r b h)

lemma compl32_lt (x : Nat) (h : x < 4294967296) : compl32 x < 4294967296 :=
  Nat.xor_lt_two_pow (n := 32) (by norm_num) h

lemma frameCrc_lt (rx tx tag pl : List Nat) : frameCrc rx tx tag pl < 4294967296 := by
  unfold frameCrc crc32_update
  repeat first
    | apply compl32_lt
    | apply crcRaw_lt
  norm_num

/-! ## The checksum chain is a single complemented register run -/

lemma crcRaw_append (a b : List Nat) (r : Nat) :
    crcRaw r (a ++ b) = crcRaw (crcRaw r a) b := by
  simp [crcRaw, List.foldl_append]

lemma compl32_compl32 (x : Nat) : compl32 (compl32 x) = x := by
  unfold compl32
  rw [← Nat.xor_assoc, Nat.xor_self, Nat.zero_xor]

lemma frameCrc_eq_compl_raw (rx tx tag pl : List Nat) :
    frameCrc rx tx tag pl = compl32 (crcRaw 0 (rx ++ tx ++ tag ++ pl)) := by
  unfold frameCrc crc32_update
  rw [compl32_compl32, compl32_compl32, compl32_compl32]
  have h0 : compl32 0xFFFFFFFF = 0 := by
    unfold compl32
    exact Nat.xor_self _
  rw [h0]
  simp [crcRaw_append]

/-! ## Decoding a serialized frame, stage by stage -/

lemma list_len_six {l : List Nat} (h : l.length = 6) :
    ∃ a0 a1 a2 a3 a4 a5 : Nat, l = [a0, a1, a2, a3, a4, a5] := by
  match l, h with
  | [a0, a1, a2, a3, a4, a5], _ => exact ⟨a0, a1, a2, a3, a4, a5, rfl⟩

lemma run_serializeC (rx tx payload : List Nat) (c : Nat)
    (hrx : rx.length = 6) (htx : tx.length = 6)
    (h1 : 1 ≤ payload.length) (h2 : payload.length ≤ 65535) (hc : c < 4294967296) :
    run Decoder.new (serializeC rx tx payload c) =
      (if frameCrc rx tx (be16 payload.length) payload = c then
        ⟨0, List.replicate 8 0, payload.length,
          ⟨rx, tx, some (be16 payload.length), payload⟩, DecodeState.Finished⟩
       else
        ⟨4, be32 c ++ [0, 0, 0, 0], payload.length,
          ⟨rx, tx, some (be16 payload.length), payload⟩, DecodeState.Invalid⟩, []) := by
  obtain ⟨r0, r1, r2, r3, r4, r5, rfl⟩ := list_len_six hrx
  obtain ⟨t0, t1, t2, t3, t4, t5, rfl⟩ := list_len_six htx
  have hassoc : serializeC [r0, r1, r2, r3, r4, r5] [t0, t1, t2, t3, t4, t5] payload c =
      (PREAMBLE ++ [SFD]) ++ ([r0, r1, r2, r3, r4, r5] ++ ([t0, t1, t2, t3, t4, t5] ++
        (be16 payload.length ++ (payload ++ be32 c)))) := by
    simp [serializeC, List.append_assoc]
  have hbe16 : be16 payload.length = [payload.length / 256 % 256, payload.length % 256] := rfl
  have htagval : 256 * (payload.length / 256 % 256) + payload.length % 256 = payload.length := by
    omega
  have hbe32 : be32 c = [c / 16777216 % 256, c / 65536 % 256, c / 256 % 256, c % 256] := rfl
  have hcdec : 16777216 * (c / 16777216 % 256) + 65536 * (c / 65536 % 256) +
      256 * (c / 256 % 256) + c % 256 = c := by
    omega
  have s2 : run ⟨0, List.replicate 8 0, 0,
        ⟨[0, 0, 0, 0, 0, 0], [0, 0, 0, 0, 0, 0], some [0, 0], []⟩, DecodeState.RxMac⟩
        [r0, r1, r2, r3, r4, r5] =
      (⟨0, List.replicate 8 0, 0,
        ⟨[r0, r1, r2, r3, r4, r5], [0, 0, 0, 0, 0, 0], some [0, 0], []⟩, DecodeState.TxMac⟩, []) :=
    run_rx _ _ _ _ _ _ _ _ _ _ _ _ _ _ _ _ _
  have s3 : run ⟨0, List.replicate 8 0, 0,
        ⟨[r0, r1, r2, r3, r4, r5], [0, 0, 0, 0, 0, 0], some [0, 0], []⟩, DecodeState.TxMac⟩
        [t0, t1, t2, t3, t4, t5] =
      (⟨0, List.replicate 8 0, 0,
        ⟨[r0, r1, r2, r3, r4, r5], [t0, t1, t2, t3, t4, t5], some [0, 0], []⟩, DecodeState.Tag802⟩, []) :=
    run_tx _ _ _ _ _ _ _ _ _ _ _ _ _ _ _ _ _
  have s4 : run ⟨0, List.replicate 8 0, 0,
        ⟨[r0, r1, r2, r3, r4, r5], [t0, t1, t2, t3, t4, t5], some [0, 0], []⟩, DecodeState.Tag802⟩
        (be16 payload.length) =
      (⟨0, List.replicate 8 0, payload.length,
        ⟨[r0, r1, r2, r3, r4, r5], [t0, t1, t2, t3, t4, t5], some (be16 payload.length), []⟩,
        DecodeState.Payload⟩, []) := by
    rw [hbe16, run_tag]
    simp only [htagval]
  have s5 : run ⟨0, List.replicate 8 0, payload.length,
        ⟨[r0, r1, r2, r3, r4, r5], [t0, t1, t2, t3, t4, t5], some (be16 payload.length), []⟩,
        DecodeState.Payload⟩ payload =
      (⟨0, List.replicate 8 0, payload.length,
        ⟨[r0, r1, r2, r3, r4, r5], [t0, t1, t2, t3, t4, t5], some (be16 payload.length), payload⟩,
        DecodeState.Checksum⟩, []) := by
    have hne : payload ≠ [] := by
      intro hnil
      rw [hnil] at h1
      simp at h1
    simpa using run_payload_fill payload 0 (List.replicate 8 0) payload.length
      [r0, r1, r2, r3, r4, r5] [t0, t1, t2, t3, t4, t5] (some (be16 payload.length)) []
      (by simp) hne
  have s6 : run ⟨0, List.replicate 8 0, payload.length,
        ⟨[r0, r1, r2, r3, r4, r5], [t0, t1, t2, t3, t4, t5], some (be16 payload.length), payload⟩,
        DecodeState.Checksum⟩ (be32 c) =
      (if frameCrc [r0, r1, r2, r3, r4, r5] [t0, t1, t2, t3, t4, t5] (be16 payload.length) payload = c then
        ⟨0, List.replicate 8 0, payload.length,
          ⟨[r0, r1, r2, r3, r4, r5], [t0, t1, t2, t3, t4, t5], some (be16 payload.length), payload⟩,
          DecodeState.Finished⟩
       else
        ⟨4, be32 c ++ [0, 0, 0, 0], payload.length,
          ⟨[r0, r1, r2, r3, r4, r5], [t0, t1, t2, t3, t4, t5], some (be16 payload.length), payload⟩,
          DecodeState.Invalid⟩, []) := by
    have hhash : hash_crc32 ⟨[r0, r1, r2, r3, r4, r5], [t0, t1, t2, t3, t4, t5],
        some (be16 payload.length), payload⟩ =
        frameCrc [r0, r1, r2, r3, r4, r5] [t0, t1, t2, t3, t4, t5] (be16 payload.length) payload := rfl
    rw [hbe32, run_checksum, hhash, hcdec]
    simp
  rw [hassoc]
  simpa using run_chain run_sync (run_chain s2 (run_chain s3 (run_chain s4 (run_chain s5 s6))))

lemma run_serialize_flush (rx tx payload : List Nat) (fb : Nat)
    (hrx : rx.length = 6) (htx : tx.length = 6)
    (h1 : 1 ≤ payload.length) (h2 : payload.length ≤ 65535) :
    run Decoder.new (serialize rx tx payload ++ [fb]) =
      (Decoder.new, [⟨rx, tx, some (be16 payload.length), payload⟩]) := by
  have hser := run_serializeC rx tx payload (frameCrc rx tx (be16 payload.length) payload)
    hrx htx h1 h2 (frameCrc_lt _ _ _ _)
  rw [if_pos rfl] at hser
  have hs : serialize rx tx payload = serializeC rx tx payload
      (frameCrc rx tx (be16 payload.length) payload) := rfl
  rw [hs]
  simpa using run_chain hser (run_finish (List.replicate 8 0) payload.length _ fb)

lemma run_serializeC_flush_bad (rx tx payload : List Nat) (c fb : Nat)
    (hrx : rx.length = 6) (htx : tx.length = 6)
    (h1 : 1 ≤ payload.length) (h2 : payload.length ≤ 65535) (hc : c < 4294967296)
    (hne : frameCrc rx tx (be16 payload.length) payload ≠ c) :
    run Decoder.new (serializeC rx tx payload c ++ [fb]) =
      (⟨0, List.replicate 8 0, 0, ⟨rx, tx, some (be16 payload.length), payload⟩,
        DecodeState.Waiting⟩, []) := by
  have hser := run_serializeC rx tx payload c hrx htx h1 h2 hc
  rw [if_neg hne] at hser
  simpa using run_chain hser (run_invalid (be32 c ++ [0, 0, 0, 0]) 4 payload.length _ fb)

/-! ## The reachability invariant -/

lemma Inv_new : Inv Decoder.new :=
  ⟨by simp [Decoder.new, stateBound], by simp [Decoder.new],
   by simp [Decoder.new, EthFrame.default], by simp [Decoder.new, EthFrame.default],
   ⟨List.replicate 2 0, rfl, by simp⟩⟩

lemma Inv_step (d : Decoder) (b : Nat) (h : Inv d) : Inv (d.recv_byte b).1 := by
  obtain ⟨hpos, hint, hrx, htx, t, htag, htlen⟩ := h
  rcases d with ⟨pos, interim, plen, ⟨rxm, txm, tg, pl⟩, st⟩
  simp only at hpos hint hrx htx htag
  subst htag
  cases st with
  | Waiting =>
    simp only [stateBound] at hpos
    refine ⟨?_, ?_, ?_, ?_, ?_⟩ <;>
      simp [Decoder.recv_byte, Decoder.step_waiting, stateBound, List.length_set,
        hint, hrx, htx, htlen] <;>
      omega
  | Preamble =>
    simp only [stateBound] at hpos
    refine ⟨?_, ?_, ?_, ?_, ?_⟩ <;>
      simp only [Decoder.recv_byte, Decoder.step_preamble, Decoder.clear_pos_and_interim] <;>
      split_ifs <;>
      simp_all [stateBound, PREAMBLE_LEN] <;> omega
  | Sfd =>
    refine ⟨?_, ?_, ?_, ?_, ?_⟩ <;>
      simp only [Decoder.recv_byte, Decoder.step_sfd] <;>
      split_ifs <;> simp_all [stateBound]
  | RxMac =>
    simp only [stateBound] at hpos
    refine ⟨?_, ?_, ?_, ?_, ?_⟩ <;>
      simp only [Decoder.recv_byte, Decoder.step_rx_mac, Decoder.clear_pos_and_interim] <;>
      split_ifs <;>
      simp_all [stateBound, List.length_set] <;> omega
  | TxMac =>
    simp only [stateBound] at hpos
    refine ⟨?_, ?_, ?_, ?_, ?_⟩ <;>
      simp only [Decoder.recv_byte, Decoder.step_tx_mac, Decoder.clear_pos_and_interim] <;>
      split_ifs <;>
      simp_all [stateBound, List.length_set] <;> omega
  | Tag802 =>
    simp only [stateBound] at hpos
    refine ⟨?_, ?_, ?_, ?_, ?_⟩ <;>
      simp only [Decoder.recv_byte, Decoder.step_tag802, Decoder.clear_pos_and_interim] <;>
      split_ifs <;>
      simp_all [stateBound, List.length_set] <;> omega
  | Payload =>
    refine ⟨?_, ?_, ?_, ?_, ?_⟩ <;>
      simp only [Decoder.recv_byte, Decoder.step_payload] <;>
      split_ifs <;> simp_all [stateBound]
  | Checksum =>
    simp only [stateBound] at hpos
    refine ⟨?_, ?_, ?_, ?_, ?_⟩ <;>
      simp only [Decoder.recv_byte, Decoder.step_checksum, Decoder.clear_pos_and_interim] <;>
      split_ifs <;>
      simp_all [stateBound, List.length_set] <;> omega
  | Finished =>
    refine ⟨?_, ?_, ?_, ?_, ?_⟩ <;>
      simp [Decoder.recv_byte, Decoder.step_finished, Decoder.clear_all,
        Decoder.clear_pos_and_interim, stateBound, EthFrame.default]
  | Invalid =>
    refine ⟨?_, ?_, ?_, ?_, ?_⟩ <;>
      simp [Decoder.recv_byte, Decoder.clear_all, Decoder.clear_pos_and_interim, stateBound,
        hrx, htx, htlen]

lemma Inv_run (bs : List Nat) : ∀ d, Inv d → Inv (run d bs).1 := by
  induction bs with
  | nil => intro d h; simpa [run] using h
  | cons b rest ih =>
    intro d h
    rcases hrecv : d.recv_byte b with ⟨d2, of⟩
    have h2 : Inv d2 := by
      have := Inv_step d b h
      rw [hrecv] at this
      exact this
    cases of with
    | none => rw [run_cons_none rest hrecv]; exact ih d2 h2
    | some f => rw [run_cons_some rest hrecv]; exact ih d2 h2

lemma recv_byte_some {d d2 : Decoder} {b : Nat} {g : EthFrame}
    (h : d.recv_byte b = (d2, some g)) :
    g = d.frame ∧ d.state = DecodeState.Finished := by
  rcases d with ⟨pos, interim, plen, f, st⟩
  cases st <;>
    simp_all [Decoder.recv_byte, Decoder.step_finished, Decoder.clear_all,
      Decoder.clear_pos_and_interim]

lemma run_emitted (bs : List Nat) :
    ∀ d, Inv d → ∀ f ∈ (run d bs).2, ∃ t, f.tag802 = some t ∧ t.length = 2 := by
  induction bs with
  | nil => intro d _ f hf; simp [run] at hf
  | cons b rest ih =>
    intro d hInv f hf
    rcases hrecv : d.recv_byte b with ⟨d2, of⟩
    have hInv2 : Inv d2 := by
      have := Inv_step d b hInv
      rw [hrecv] at this
      exact this
    cases of with
    | none =>
      rw [run_cons_none rest hrecv] at hf
      exact ih d2 hInv2 f hf
    | some g =>
      rw [run_cons_some rest hrecv] at hf
      simp only [List.mem_cons] at hf
      rcases hf with rfl | hf
      · obtain ⟨hg, -⟩ := recv_byte_some hrecv
        obtain ⟨-, -, -, -, t, htag, htlen⟩ := hInv
        exact ⟨t, by rw [hg, htag], htlen⟩
      · exact ih d2 hInv2 f hf

/-- The concrete 22-byte wire prefix whose length field decodes to 0, driving a
fresh decoder into the `Payload` state with `payload_len = 0`. -/
lemma run_zero_len_prefix :
    run Decoder.new (PREAMBLE ++ [SFD] ++ [1, 2, 3, 4, 5, 6] ++ [7, 8, 9, 10, 11, 12] ++ [0, 0]) =
      (⟨0, List.replicate 8 0, 0,
        ⟨[1, 2, 3, 4, 5, 6], [7, 8, 9, 10, 11, 12], some [0, 0], []⟩, DecodeState.Payload⟩, []) := by
  decide

end EthFrames

namespace EthFrames

/-! ## Claim theorems -/

/-- C1 (amended): for every valid frame with 6-byte addresses, payload of
length between 1 and 65535 and correct trailing checksum, serializing to the
wire layout and feeding the bytes one at a time to a fresh decoder (plus the
one extra Finalize byte) emits exactly one frame whose receiver address,
transmitter address and payload equal the originals, and leaves the decoder
freshly reset.  (The claim's "any length ≤ 65535" fails at length 0, see the
counterexample.) -/
theorem roundtrip_valid_frame (rx tx payload : List Nat) (fb : Nat)
    (hrx : rx.length = 6) (htx : tx.length = 6)
    (h1 : 1 ≤ payload.length) (h2 : payload.length ≤ 65535) :
    run Decoder.new (serialize rx tx payload ++ [fb]) =
      (Decoder.new, [⟨rx, tx, some (be16 payload.length), payload⟩]) :=
  run_serialize_flush rx tx payload fb hrx htx h1 h2

/-- C1 witness: the round-trip theorem instantiated at a concrete frame. -/
theorem roundtrip_valid_frame_witness :
    run Decoder.new (serialize [1, 2, 3, 4, 5, 6] [7, 8, 9, 10, 11, 12] [9, 9, 9, 9] ++ [0]) =
      (Decoder.new, [⟨[1, 2, 3, 4, 5, 6], [7, 8, 9, 10, 11, 12], some (be16 4), [9, 9, 9, 9]⟩]) :=
  roundtrip_valid_frame [1, 2, 3, 4, 5, 6] [7, 8, 9, 10, 11, 12] [9, 9, 9, 9] 0
    (by decide) (by decide) (by decide) (by decide)

/-- C1 counterexample: a wire-valid frame with payload length 0 and correct
checksum, followed by the extra Finalize byte, emits nothing (the decoder
never leaves `Payload` once `payload_len = 0`), refuting "payload of any
length ≤ 65535". -/
theorem roundtrip_zero_length_counterexample :
    (run Decoder.new (serialize [1, 2, 3, 4, 5, 6] [7, 8, 9, 10, 11, 12] [] ++ [0])).2 = [] := by
  decide

/-- C2 (amended): a frame whose length field decodes to 65535 round-trips
correctly; but once the decoder is in `Payload` with expected length 0 it
appends every subsequent byte to the payload and never advances to `Checksum`
(so a length-0 frame is never emitted). -/
theorem boundary_length_amended :
    (∀ (rx tx payload : List Nat) (fb : Nat), rx.length = 6 → tx.length = 6 →
      payload.length = 65535 →
      run Decoder.new (serialize rx tx payload ++ [fb]) =
        (Decoder.new, [⟨rx, tx, some (be16 payload.length), payload⟩])) ∧
    (∀ (bs : List Nat) (P : Nat) (Iv rm tm : List Nat) (tg : Option (List Nat)) (acc : List Nat),
      run ⟨P, Iv, 0, ⟨rm, tm, tg, acc⟩, DecodeState.Payload⟩ bs =
        (⟨P, Iv, 0, ⟨rm, tm, tg, acc ++ bs⟩, DecodeState.Payload⟩, [])) := by
  constructor
  · intro rx tx payload fb hrx htx hlen
    exact run_serialize_flush rx tx payload fb hrx htx (by omega) (by omega)
  · intro bs P Iv rm tm tg acc
    exact run_payload_zero bs P Iv rm tm tg acc

/-- C2 witness: the maximal-length half instantiated at a concrete 65535-byte
payload, and the zero-length half at a concrete stuck state. -/
theorem boundary_length_amended_witness :
    run Decoder.new
        (serialize [1, 2, 3, 4, 5, 6] [7, 8, 9, 10, 11, 12] (List.replicate 65535 9) ++ [0]) =
      (Decoder.new, [⟨[1, 2, 3, 4, 5, 6], [7, 8, 9, 10, 11, 12],
        some (be16 (List.replicate 65535 9).length), List.replicate 65535 9⟩]) :=
  boundary_length_amended.1 [1, 2, 3, 4, 5, 6] [7, 8, 9, 10, 11, 12] (List.replicate 65535 9) 0
    (by decide) (by decide) (List.length_replicate 65535 9)

/-- C2 counterexample: the length-0 boundary case of the claim fails — after a
fully valid zero-length frame plus three further bytes the decoder is still
parked in `Payload` and has emitted nothing. -/
theorem boundary_zero_length_counterexample :
    ((run Decoder.new (serialize [2, 3, 4, 5, 6, 7] [8, 9, 10, 11, 12, 13] [] ++ [0, 0, 0])).1).state =
      DecodeState.Payload ∧
    (run Decoder.new (serialize [2, 3, 4, 5, 6, 7] [8, 9, 10, 11, 12, 13] [] ++ [0, 0, 0])).2 = [] := by
  decide

/-- C3 (amended): on the byte following a checksum mismatch the decoder, in
`Invalid`, ignores the byte, resets cursor and expected length and returns to
`Waiting` — but the in-progress frame's contents (addresses and payload) are
retained, not discarded; a subsequent valid frame is therefore not guaranteed
to be decoded (see the counterexample). -/
theorem invalid_resets_counters_keeps_frame (d : Decoder) (b : Nat)
    (h : d.state = DecodeState.Invalid) :
    d.recv_byte b = (⟨0, List.replicate 8 0, 0, d.frame, DecodeState.Waiting⟩, none) := by
  rcases d with ⟨pos, interim, plen, f, st⟩
  simp only at h
  subst h
  simp [Decoder.recv_byte, Decoder.clear_all, Decoder.clear_pos_and_interim]

/-- C3 witness: the Invalid-arm equation at a concrete decoder, showing the
stale frame (including its payload) surviving the reset. -/
theorem invalid_resets_counters_keeps_frame_witness :
    (⟨4, [9, 9, 9, 9, 0, 0, 0, 0], 1,
      ⟨[1, 1, 1, 1, 1, 1], [2, 2, 2, 2, 2, 2], some [0, 1], [5]⟩,
      DecodeState.Invalid⟩ : Decoder).recv_byte 7 =
      (⟨0, List.replicate 8 0, 0,
        ⟨[1, 1, 1, 1, 1, 1], [2, 2, 2, 2, 2, 2], some [0, 1], [5]⟩, DecodeState.Waiting⟩, none) :=
  invalid_resets_counters_keeps_frame _ 7 rfl

/-- C3 counterexample: one corrupted payload byte in an otherwise valid frame
causes no emission, and the next fully valid frame is ALSO lost (the stale
payload is never discarded), refuting "a subsequent valid frame fed afterwards
is still decoded and emitted". -/
theorem checksum_recovery_counterexample :
    (run Decoder.new
      (serializeC [1, 2, 3, 4, 5, 6] [7, 8, 9, 10, 11, 12] [8]
          (frameCrc [1, 2, 3, 4, 5, 6] [7, 8, 9, 10, 11, 12] (be16 1) [9]) ++
        (serialize [13, 14, 15, 16, 17, 18] [19, 20, 21, 22, 23, 24] [7] ++ [0]))).2 = [] := by
  decide

/-- C4 (amended): a stray PAIR of bytes whose second byte differs from the
preamble value 0x55 leaves the decoder exactly in its initial state, so a
following valid frame is emitted intact; a SINGLE stray byte instead causes
the following frame to be lost (see the counterexample), because the first
preamble byte is consumed unconditionally. -/
theorem resync_after_stray_pair (g1 g2 : Nat) (rx tx payload : List Nat) (fb : Nat)
    (hg : g2 ≠ 0x55) (hrx : rx.length = 6) (htx : tx.length = 6)
    (h1 : 1 ≤ payload.length) (h2 : payload.length ≤ 65535) :
    run Decoder.new ([g1, g2] ++ (serialize rx tx payload ++ [fb])) =
      (Decoder.new, [⟨rx, tx, some (be16 payload.length), payload⟩]) := by
  have hs1 : Decoder.new.recv_byte g1 =
      (⟨1, (List.replicate 8 0).set 0 g1, 0, EthFrame.default, DecodeState.Preamble⟩, none) := rfl
  have hne : PREAMBLE.getD 1 0 ≠ g2 := fun hq => hg hq.symm
  have hs2 : (⟨1, (List.replicate 8 0).set 0 g1, 0, EthFrame.default,
      DecodeState.Preamble⟩ : Decoder).recv_byte g2 = (Decoder.new, none) := by
    simp only [Decoder.recv_byte]
    unfold Decoder.step_preamble
    rw [if_pos hne]
    rfl
  have hpair : run Decoder.new [g1, g2] = (Decoder.new, []) := by
    rw [run_cons_none [g2] hs1, run_cons_none [] hs2]
    rfl
  simpa using run_chain hpair (run_serialize_flush rx tx payload fb hrx htx h1 h2)

/-- C4 witness: two stray bytes then a concrete valid frame, decoded. -/
theorem resync_after_stray_pair_witness :
    run Decoder.new ([7, 3] ++ (serialize [1, 2, 3, 4, 5, 6] [7, 8, 9, 10, 11, 12] [9] ++ [0])) =
      (Decoder.new, [⟨[1, 2, 3, 4, 5, 6], [7, 8, 9, 10, 11, 12], some (be16 1), [9]⟩]) :=
  resync_after_stray_pair 7 3 [1, 2, 3, 4, 5, 6] [7, 8, 9, 10, 11, 12] [9] 0
    (by decide) (by decide) (by decide) (by decide) (by decide)

/-- C4 counterexample: ONE stray byte followed by a fully valid serialized
frame (plus flush byte) emits nothing, refuting the claim as stated. -/
theorem single_stray_byte_counterexample :
    (run Decoder.new ([7] ++ (serialize [1, 2, 3, 4, 5, 6] [7, 8, 9, 10, 11, 12] [9] ++ [0]))).2 = [] := by
  decide

/-- C5 (amended): the value the decoder compares against the wire is the
reflected Ethernet-polynomial CRC-32 register run started at 0 with a final
bitwise complement (the crc32fast resumable checksum seeded with 0xFFFFFFFF)
— not the plain register run started at 0xFFFFFFFF without post-complement
that the claim describes — computed over receiver address, transmitter
address, tag and payload in that order; the 4 wire bytes are read big-endian
and the frame is emitted iff they equal that value exactly. -/
theorem checksum_is_complemented_crc :
    (∀ rx tx tag payload : List Nat,
      frameCrc rx tx tag payload = compl32 (crcRaw 0 (rx ++ tx ++ tag ++ payload))) ∧
    (∀ (rx tx payload : List Nat) (c fb : Nat), rx.length = 6 → tx.length = 6 →
      1 ≤ payload.length → payload.length ≤ 65535 → c < 4294967296 →
      (run Decoder.new (serializeC rx tx payload c ++ [fb])).2 =
        if frameCrc rx tx (be16 payload.length) payload = c then
          [⟨rx, tx, some (be16 payload.length), payload⟩] else []) := by
  constructor
  · exact frameCrc_eq_compl_raw
  · intro rx tx payload c fb hrx htx h1 h2 hc
    by_cases h : frameCrc rx tx (be16 payload.length) payload = c
    · rw [if_pos h]
      subst h
      have hs : serializeC rx tx payload (frameCrc rx tx (be16 payload.length) payload) =
          serialize rx tx payload := rfl
      rw [hs, run_serialize_flush rx tx payload fb hrx htx h1 h2]
    · rw [if_neg h, run_serializeC_flush_bad rx tx payload c fb hrx htx h1 h2 hc h]

/-- C5 witness: both halves of the amended checksum characterization at
concrete inputs (trailer word 0 is rejected: no emission). -/
theorem checksum_is_complemented_crc_witness :
    (frameCrc [1, 2, 3, 4, 5, 6] [7, 8, 9, 10, 11, 12] [0, 1] [9] =
      compl32 (crcRaw 0 ([1, 2, 3, 4, 5, 6] ++ [7, 8, 9, 10, 11, 12] ++ [0, 1] ++ [9]))) ∧
    ((run Decoder.new (serializeC [1, 2, 3, 4, 5, 6] [7, 8, 9, 10, 11, 12] [9] 0 ++ [0])).2 =
      if frameCrc [1, 2, 3, 4, 5, 6] [7, 8, 9, 10, 11, 12] (be16 ([9] : List Nat).length) [9] = 0
      then [⟨[1, 2, 3, 4, 5, 6], [7, 8, 9, 10, 11, 12], some (be16 ([9] : List Nat).length), [9]⟩]
      else []) :=
  ⟨checksum_is_complemented_crc.1 [1, 2, 3, 4, 5, 6] [7, 8, 9, 10, 11, 12] [0, 1] [9],
   checksum_is_complemented_crc.2 [1, 2, 3, 4, 5, 6] [7, 8, 9, 10, 11, 12] [9] 0 0
     (by decide) (by decide) (by decide) (by decide) (by decide)⟩

/-- C5 counterexample: the CRC the claim describes (register started at
0xFFFFFFFF, no post-complement, `specCrc`) differs from the value the code
compares (`hash_crc32`), and a frame carrying that spec-described value as its
wire checksum is rejected — nothing is emitted although the claim predicts
emission. -/
theorem spec_crc_description_counterexample :
    specCrc ([1, 2, 3, 4, 5, 6] ++ [7, 8, 9, 10, 11, 12] ++ be16 4 ++ [9, 9, 9, 9]) ≠
      hash_crc32 ⟨[1, 2, 3, 4, 5, 6], [7, 8, 9, 10, 11, 12], some (be16 4), [9, 9, 9, 9]⟩ ∧
    (run Decoder.new
      (serializeC [1, 2, 3, 4, 5, 6] [7, 8, 9, 10, 11, 12] [9, 9, 9, 9]
        (specCrc ([1, 2, 3, 4, 5, 6] ++ [7, 8, 9, 10, 11, 12] ++ be16 4 ++ [9, 9, 9, 9])) ++
        [0])).2 = [] := by
  decide

/-- C6: the call carrying the checksum's final byte returns no frame (every
`Checksum`-state call returns `none`); the next call, whatever its byte,
returns the completed frame and leaves the decoder exactly in the fresh
initial state (new empty frame, cursor and expected length 0, `Waiting`). -/
theorem finalize_flush_byte :
    (∀ (d : Decoder) (b : Nat), d.state = DecodeState.Checksum → (d.recv_byte b).2 = none) ∧
    (∀ (d : Decoder) (b : Nat), d.state = DecodeState.Finished →
      d.recv_byte b = (Decoder.new, some d.frame)) := by
  constructor
  · intro d b h
    rcases d with ⟨pos, interim, plen, f, st⟩
    simp only at h
    subst h
    simp [Decoder.recv_byte]
  · intro d b h
    rcases d with ⟨pos, interim, plen, f, st⟩
    simp only at h
    subst h
    simp [Decoder.recv_byte, Decoder.step_finished, Decoder.clear_all,
      Decoder.clear_pos_and_interim, Decoder.new, EthFrame.default]

/-- C6 witness: both halves at concrete decoders (the emitted frame is the
stored one, independent of the flush byte's value). -/
theorem finalize_flush_byte_witness :
    ((⟨3, [1, 2, 3, 0, 0, 0, 0, 0], 1,
      ⟨[1, 1, 1, 1, 1, 1], [2, 2, 2, 2, 2, 2], some [0, 1], [5]⟩,
      DecodeState.Checksum⟩ : Decoder).recv_byte 9).2 = none ∧
    (⟨0, List.replicate 8 0, 1,
      ⟨[1, 1, 1, 1, 1, 1], [2, 2, 2, 2, 2, 2], some [0, 1], [5]⟩,
      DecodeState.Finished⟩ : Decoder).recv_byte 42 =
      (Decoder.new, some ⟨[1, 1, 1, 1, 1, 1], [2, 2, 2, 2, 2, 2], some [0, 1], [5]⟩) :=
  ⟨finalize_flush_byte.1 _ 9 rfl, finalize_flush_byte.2 _ 42 rfl⟩

/-- C7: after any input byte sequence the reachable decoder state satisfies
the invariant `Inv` — the cursor is below the per-state bound (hence every
index into `interim`, `PREAMBLE`, `rx_mac`, `tx_mac` and the tag is in
bounds and `tag802.unwrap` succeeds) — and in particular the cursor stays
within [0, 8). -/
theorem recv_byte_never_panics (bs : List Nat) :
    Inv ((run Decoder.new bs).1) ∧ ((run Decoder.new bs).1).pos < 8 := by
  have h := Inv_run bs Decoder.new Inv_new
  refine ⟨h, ?_⟩
  obtain ⟨hpos, -⟩ := h
  have hb : stateBound ((run Decoder.new bs).1).state ≤ 7 := by
    cases ((run Decoder.new bs).1).state <;> simp [stateBound]
  omega

/-- Feeding the zero-length-field header and then `N + 1` further bytes leaves
the in-progress payload holding more than `N` bytes. -/
lemma payload_overflow (N : Nat) :
    N < ((run Decoder.new ((PREAMBLE ++ [SFD] ++ [1, 2, 3, 4, 5, 6] ++ [7, 8, 9, 10, 11, 12] ++ [0, 0]) ++
      List.replicate (N + 1) 0)).1).frame.payload.length := by
  rw [run_append, run_zero_len_prefix]
  simp only
  rw [run_payload_zero]
  simp only [List.nil_append, List.length_replicate]
  omega

/-- C8 (amended): the in-progress payload buffer is NOT bounded by 65535 — for
every bound there is an input sequence (a frame header whose length field
decodes to 0, then enough further bytes) driving the payload buffer past it. -/
theorem payload_buffer_unbounded (N : Nat) :
    ∃ bs : List Nat, N < ((run Decoder.new bs).1).frame.payload.length :=
  ⟨_, payload_overflow N⟩

/-- C8 counterexample: an explicit input after which the in-progress payload
holds 65536 bytes, refuting "never holds more than 65535 bytes". -/
theorem payload_bound_counterexample :
    65535 <
      ((run Decoder.new ((PREAMBLE ++ [SFD] ++ [1, 2, 3, 4, 5, 6] ++ [7, 8, 9, 10, 11, 12] ++ [0, 0]) ++
        List.replicate 65536 0)).1).frame.payload.length := by
  have h := payload_overflow 65535
  rw [show (65535 : Nat) + 1 = 65536 from rfl] at h
  exact h

/-- C9: in `Waiting` (with the cursor at 0, as in every reachable `Waiting`
state) any byte whatever is stored as the first candidate preamble byte and
the decoder moves to `Preamble` with the cursor at 1; in `Preamble` a byte
that differs from the pattern at the current cursor resets the cursor to 0,
clears the scratch and returns to `Waiting`, consuming the byte and emitting
nothing. -/
theorem waiting_preamble_transitions :
    (∀ (d : Decoder) (b : Nat), d.state = DecodeState.Waiting → d.pos = 0 →
      d.recv_byte b =
        (⟨1, d.interim.set 0 b, d.payload_len, d.frame, DecodeState.Preamble⟩, none)) ∧
    (∀ (d : Decoder) (b : Nat), d.state = DecodeState.Preamble → PREAMBLE.getD d.pos 0 ≠ b →
      d.recv_byte b =
        (⟨0, List.replicate 8 0, d.payload_len, d.frame, DecodeState.Waiting⟩, none)) := by
  constructor
  · intro d b hs hp
    rcases d with ⟨pos, interim, plen, f, st⟩
    simp only at hs hp
    subst hs
    subst hp
    simp [Decoder.recv_byte, Decoder.step_waiting]
  · intro d b hs hne
    rcases d with ⟨pos, interim, plen, f, st⟩
    simp only at hs hne
    subst hs
    simp only [Decoder.recv_byte]
    unfold Decoder.step_preamble
    rw [if_pos hne]
    simp [Decoder.clear_pos_and_interim]

/-- C9 witness: both transitions at concrete decoders. -/
theorem waiting_preamble_transitions_witness :
    (Decoder.new.recv_byte 200 =
      (⟨1, (List.replicate 8 0).set 0 200, 0, EthFrame.default, DecodeState.Preamble⟩, none)) ∧
    ((⟨1, (List.replicate 8 0).set 0 200, 0, EthFrame.default,
        DecodeState.Preamble⟩ : Decoder).recv_byte 3 =
      (⟨0, List.replicate 8 0, 0, EthFrame.default, DecodeState.Waiting⟩, none)) :=
  ⟨waiting_preamble_transitions.1 Decoder.new 200 rfl rfl,
   waiting_preamble_transitions.2 _ 3 rfl (by decide)⟩

/-- C10: in every reachable decoder state the in-progress frame's `tag802`
field is `some` 2-byte list (so the early-return branch of `step_tag802` and
the `unwrap` in `hash_crc32` are never exercised on reachable states), and
every emitted frame carries a present 2-byte tag field. -/
theorem tag802_always_present (bs : List Nat) :
    (∃ t, ((run Decoder.new bs).1).frame.tag802 = some t ∧ t.length = 2) ∧
    (∀ f, f ∈ (run Decoder.new bs).2 → ∃ t, f.tag802 = some t ∧ t.length = 2) := by
  constructor
  · obtain ⟨-, -, -, -, t, htag, htlen⟩ := Inv_run bs Decoder.new Inv_new
    exact ⟨t, htag, htlen⟩
  · exact run_emitted bs Decoder.new Inv_new

/-- C10 witness: the emitted-frame half applied to the frame emitted by a
concrete valid run. -/
theorem tag802_always_present_witness :
    ∃ t, (⟨[1, 2, 3, 4, 5, 6], [7, 8, 9, 10, 11, 12], some (be16 4), [9, 9, 9, 9]⟩ :
      EthFrame).tag802 = some t ∧ t.length = 2 :=
  (tag802_always_present
      (serialize [1, 2, 3, 4, 5, 6] [7, 8, 9, 10, 11, 12] [9, 9, 9, 9] ++ [0])).2
    ⟨[1, 2, 3, 4, 5, 6], [7, 8, 9, 10, 11, 12], some (be16 4), [9, 9, 9, 9]⟩ (by decide)

end EthFrames
